import Mathlib

/-!
Shallow embedding of the eggtracker repository (src/sheets.py, src/bot.py).

Time is modelled as seconds since the epoch (a Nat).  A datetime value is
its second count; datetime.now() becomes an explicit parameter now.
strftime of a datetime with the day format is modelled as its calendar-day
number (now / secPerDay), and a Date cell of the sheet is modelled as
Option Nat: some d stands for the canonical ISO string of day d, none for
a missing, empty or unparseable string (the spec fixes the stored format
to ISO dates, so canonical strings are assumed; both the string-equality
path of get_today_total and the strptime path of the week functions then
operate on the day number).  Counts are Int, as Python integers.  The
worksheet body is a list of rows in sheet order.

The Nat subtraction in the week-window computation coincides with the
Python datetime subtraction for every instant from 1970-01-07 on, i.e.
whenever 6 * secPerDay ≤ now; theorems that depend on the window carry
that hypothesis.
-/

namespace EggTracker

/-- Seconds in one day; timedelta of k days is k * secPerDay. -/
def secPerDay : Nat := 86400

/-- One data row of the EggLog sheet: its Date cell (parsed form) and its
Count cell. -/
structure Row where
  date : Option Nat
  count : Int
deriving DecidableEq, Repr

/-- The day format strftime applied to the instant now: its calendar-day
number. -/
def todayStr (now : Nat) : Nat := now / secPerDay

/-- The comparison week_ago <= record_date <= today of get_week_total and
get_week_breakdown, where record_date is the midnight instant of day d
(what strptime returns) and week_ago = now - timedelta of 6 days.  The
time of day of now is kept on both bounds, exactly as in the source. -/
def inWindow (now : Nat) (d : Nat) : Bool :=
  decide (now - 6 * secPerDay ≤ d * secPerDay) && decide (d * secPerDay ≤ now)

/-- The loop of get_today_total: the first row whose Date cell equals
today's string, returning its Count. -/
def firstTodayCount (today : Nat) : List Row → Option Int
  | [] => none
  | r :: rest =>
    if r.date = some today then some r.count else firstTodayCount today rest

/-- get_today_total from sheets.py: the Count of the first row dated
today, or 0 when no row matches. -/
def get_today_total (now : Nat) (records : List Row) : Int :=
  (firstTodayCount (todayStr now) records).getD 0

/-- Contribution of one row to the rolling 7-day total: its Count when the
date parses and lies in the window, else nothing. -/
def weekContrib (now : Nat) (r : Row) : Int :=
  match r.date with
  | some d => if inWindow now d then r.count else 0
  | none => 0

/-- get_week_total from sheets.py: the sum of Count over rows whose parsed
date passes the window comparison; rows with missing or unparseable dates
are skipped. -/
def get_week_total (now : Nat) : List Row → Int
  | [] => 0
  | r :: rest => weekContrib now r + get_week_total now rest

/-- One assignment date_counts at date_str := count of the dict-building
loop of get_week_breakdown, for one row: rows outside the window or with a
missing or unparseable date leave the dict unchanged. -/
def dcStep (now : Nat) (m : Nat → Option Int) (r : Row) : Nat → Option Int :=
  match r.date with
  | some d =>
    if inWindow now d then (fun x => if x = d then some r.count else m x) else m
  | none => m

/-- The date_counts dict of get_week_breakdown, built over the rows from
first to last, later rows overwriting earlier ones with the same date. -/
def date_counts (now : Nat) (records : List Row) : Nat → Option Int :=
  records.foldl (dcStep now) (fun _ => none)

/-- get_week_breakdown from sheets.py: for i = 0..6 the day of the instant
now - i days, paired with the dict lookup defaulting to 0.  The display
label of an entry is modelled by the day number being rendered (the source
renders the same day object two ways; the short label is a display
concern). -/
def get_week_breakdown (now : Nat) (records : List Row) : List (Nat × Int) :=
  (List.range 7).map (fun i =>
    ((now - i * secPerDay) / secPerDay,
     (date_counts now records ((now - i * secPerDay) / secPerDay)).getD 0))

/-- The find-today-row, update_cell or append_row sequence of add_eggs:
the first row whose Date equals today's string gets its Count cell
replaced by the old cell value plus count; when no row matches, the row
[today, count] is appended at the end. -/
def update_today_row (today : Nat) (count : Int) : List Row → List Row
  | [] => [⟨some today, count⟩]
  | r :: rest =>
    if r.date = some today then ⟨r.date, r.count + count⟩ :: rest
    else r :: update_today_row today count rest

/-- add_eggs from sheets.py: write through update_today_row, then
recompute both totals from a fresh read of the same (now updated) sheet.
Returns the new sheet body and the pair of totals. -/
def add_eggs (now : Nat) (count : Int) (records : List Row) :
    List Row × Int × Int :=
  let newRecords := update_today_row (todayStr now) count records
  (newRecords, get_today_total now newRecords, get_week_total now newRecords)

/-- Result of the int conversion applied to the stripped message text:
num n when the text parses to the integer n, other when the conversion
raises ValueError. -/
inductive InMsg where
  | num : Int → InMsg
  | other : InMsg

/-- The replies handle_number can send. -/
inductive Reply where
  | positivePrompt : Reply
  | over100Prompt : Reply
  | added : Int → Int → Int → Reply
  | usageHint : Reply
deriving DecidableEq, Repr

/-- handle_number from bot.py: negative input gets the positive-number
prompt, input over 100 gets the confirmation prompt, non-integers get the
usage hint, all three without touching the sheet; otherwise add_eggs runs
and the reply reports the added count and the two new totals.  Returns the
reply together with the sheet afterwards. -/
def handle_number (now : Nat) (records : List Row) : InMsg → Reply × List Row
  | InMsg.other => (Reply.usageHint, records)
  | InMsg.num n =>
    if n < 0 then (Reply.positivePrompt, records)
    else if n > 100 then (Reply.over100Prompt, records)
    else
      let res := add_eggs now n records
      (Reply.added n res.2.1 res.2.2, res.1)

/-- The three statistics of the stats handler in bot.py, as the code
computes them: get_today_total, get_week_total and get_week_breakdown each
open the worksheet and fetch all records themselves, so the k-th fetch is
free to return a different record set; fetch k models the record set the
k-th fetch returns. -/
def statsSeq (now : Nat) (fetch : Nat → List Row) :
    Int × Int × List (Nat × Int) :=
  (get_today_total now (fetch 0),
   get_week_total now (fetch 1),
   get_week_breakdown now (fetch 2))

/-- The three statistics computed from one record set (one shared
snapshot). -/
def statsSingle (now : Nat) (records : List Row) :
    Int × Int × List (Nat × Int) :=
  (get_today_total now records,
   get_week_total now records,
   get_week_breakdown now records)

/-- The environment configuration the program reads; none models an unset
variable (or one set to the empty string, which the falsiness checks of
the source treat the same). -/
structure Config where
  telegram_bot_token : Option String
  google_service_account_json : Option String
  google_sheets_id : Option String

/-- The startup check of main in bot.py: only the Telegram token is read
and checked before the application is built and starts handling events. -/
def main_startup (c : Config) : Except String Unit :=
  match c.telegram_bot_token with
  | none => Except.error ("TELEGRAM_BOT_TOKEN environment variable not set")
  | some _ => Except.ok ()

/-- The check of get_client in sheets.py: raises when the service-account
credentials variable is unset. -/
def get_client_check (c : Config) : Except String Unit :=
  match c.google_service_account_json with
  | none =>
    Except.error ("GOOGLE_SERVICE_ACCOUNT_JSON environment variable not set")
  | some _ => Except.ok ()

/-- The checks of get_worksheet in sheets.py: get_client first, then the
sheet-id check.  Every sheet-access function calls this, so these checks
run during request handling, not at startup. -/
def get_worksheet_check (c : Config) : Except String Unit :=
  match get_client_check c with
  | Except.error e => Except.error e
  | Except.ok _ =>
    match c.google_sheets_id with
    | none =>
      Except.error ("GOOGLE_SHEETS_ID environment variable not set")
    | some _ => Except.ok ()

/-! ## Helper lemmas -/

theorem secPerDay_def : secPerDay = 86400 := rfl

/-- The Prop form of the window test. -/
theorem inWindow_iff (now d : Nat) :
    inWindow now d = true ↔
      now - 6 * secPerDay ≤ d * secPerDay ∧ d * secPerDay ≤ now := by
  simp [inWindow]

/-- Today always passes the window test (the upper bound is now itself and
today's midnight is at most now; the lower bound is less than a day
behind today's midnight plus six days). -/
theorem inWindow_today (now : Nat) : inWindow now (todayStr now) = true := by
  rw [inWindow_iff]
  unfold todayStr
  rw [secPerDay_def]
  omega

/-- A day passing the window test lies between six days before today and
today. -/
theorem window_day_bounds (now d : Nat) (hw : inWindow now d = true) :
    todayStr now - 6 ≤ d ∧ d ≤ todayStr now := by
  rw [inWindow_iff] at hw
  unfold todayStr at *
  rw [secPerDay_def] at *
  omega

/-- The day labels of the breakdown: subtracting i days and reformatting
gives today's day number minus i. -/
theorem label_eq (now k : Nat) (hk : k ≤ 6) (h6 : 6 * secPerDay ≤ now) :
    (now - k * secPerDay) / secPerDay = todayStr now - k := by
  unfold todayStr
  rw [secPerDay_def] at *
  omega

/-- A week total is a sum of the per-row contributions, so it splits off
the last row. -/
theorem get_week_total_append (now : Nat) (l : List Row) (r : Row) :
    get_week_total now (l ++ [r]) = get_week_total now l + weekContrib now r := by
  induction l with
  | nil => simp [get_week_total]
  | cons a l ih =>
    rw [List.cons_append]
    simp only [get_week_total]
    rw [ih]
    omega

/-- The dict after processing one more row is one dcStep further. -/
theorem date_counts_append (now : Nat) (l : List Row) (r : Row) :
    date_counts now (l ++ [r]) = dcStep now (date_counts now l) r := by
  simp [date_counts, List.foldl_append]

/-- The dict-building fold never touches a key no row carries. -/
theorem foldl_dcStep_none (now x : Nat) (l : List Row)
    (h : ∀ r ∈ l, r.date ≠ some x) :
    ∀ init : Nat → Option Int, init x = none →
      (l.foldl (dcStep now) init) x = none := by
  induction l with
  | nil =>
    intro init hi
    simpa using hi
  | cons r rest ih =>
    intro init hi
    simp only [List.foldl_cons]
    have hr : r.date ≠ some x := h r (List.mem_cons_self r rest)
    refine ih (fun a ha => h a (List.mem_cons_of_mem r ha)) _ ?_
    unfold dcStep
    cases hd : r.date with
    | none => exact hi
    | some d =>
      have hdx : ¬ x = d := by
        intro e
        exact hr (by rw [hd, e])
      cases hw : inWindow now d with
      | false => simpa [hw] using hi
      | true => simpa [hw, hdx] using hi

/-- date_counts holds nothing at a date no row carries. -/
theorem date_counts_eq_none (now x : Nat) (l : List Row)
    (h : ∀ r ∈ l, r.date ≠ some x) : date_counts now l x = none := by
  unfold date_counts
  exact foldl_dcStep_none now x l h _ rfl

/-- Entry k of the breakdown, for k < 7: the day is today minus k and the
count is the dict lookup at that day. -/
theorem breakdown_getElem (now : Nat) (rs : List Row) (k : Nat)
    (hk : k < 7) (h6 : 6 * secPerDay ≤ now) :
    (get_week_breakdown now rs)[k]? =
      some (todayStr now - k,
            (date_counts now rs (todayStr now - k)).getD 0) := by
  unfold get_week_breakdown
  rw [List.getElem?_map, List.getElem?_range hk]
  simp [label_eq now k (by omega) h6]

/-- After the add_eggs write, the first row dated today carries the old
first-match count (0 when there was none) plus the delta. -/
theorem utr_firstTodayCount (q : Nat) (c : Int) (rs : List Row) :
    firstTodayCount q (update_today_row q c rs)
      = some ((firstTodayCount q rs).getD 0 + c) := by
  induction rs with
  | nil => simp [update_today_row, firstTodayCount]
  | cons r rest ih =>
    by_cases h : r.date = some q
    · simp [update_today_row, firstTodayCount, h]
    · simp [update_today_row, firstTodayCount, h, ih]

/-- When no row is dated today, add_eggs appends the new row at the end. -/
theorem utr_no_match (q : Nat) (c : Int) (rs : List Row)
    (h : firstTodayCount q rs = none) :
    update_today_row q c rs = rs ++ [⟨some q, c⟩] := by
  induction rs with
  | nil => simp [update_today_row]
  | cons r rest ih =>
    by_cases hr : r.date = some q
    · simp [firstTodayCount, hr] at h
    · simp only [firstTodayCount, hr, if_false] at h
      simp [update_today_row, hr, ih h]

/-- When some row is dated today, add_eggs rewrites the first such row in
place, replacing its count by the old count plus the delta, and leaves
every other row where it was. -/
theorem utr_match (q : Nat) (c : Int) (rs : List Row)
    (h : (firstTodayCount q rs).isSome = true) :
    update_today_row q c rs
      = rs.takeWhile (fun r => decide (r.date ≠ some q))
        ++ ⟨some q, (firstTodayCount q rs).getD 0 + c⟩
          :: rs.drop
              ((rs.takeWhile (fun r => decide (r.date ≠ some q))).length + 1) := by
  induction rs with
  | nil => simp [firstTodayCount] at h
  | cons r rest ih =>
    by_cases hr : r.date = some q
    · simp [update_today_row, firstTodayCount, hr, List.takeWhile_cons]
    · have h' : (firstTodayCount q rest).isSome = true := by
        simpa [firstTodayCount, hr] using h
      simp [update_today_row, firstTodayCount, hr, List.takeWhile_cons, ih h']

/-- Summing dict lookups over distinct labels: overriding a key d that no
entry holds yet and that occurs among the labels adds its value to the
sum. -/
theorem sum_getD_update (L : List Nat) (m : Nat → Option Int) (d : Nat)
    (v : Int) (hL : L.Nodup) (hd : d ∈ L) (hm : m d = none) :
    (L.map (fun x => (if x = d then some v else m x).getD 0)).sum
      = (L.map (fun x => (m x).getD 0)).sum + v := by
  induction L with
  | nil => simp at hd
  | cons a L ih =>
    by_cases had : a = d
    · subst had
      have ha : a ∉ L := (List.nodup_cons.mp hL).1
      have hmap : L.map (fun x => (if x = a then some v else m x).getD 0)
          = L.map (fun x => (m x).getD 0) := by
        apply List.map_congr_left
        intro x hx
        have hxa : ¬ x = a := fun e => ha (e ▸ hx)
        simp [hxa]
      simp only [List.map_cons, List.sum_cons, hmap]
      simp [hm]
      omega
    · have hdL : d ∈ L := by
        rcases List.mem_cons.mp hd with h | h
        · exact absurd h.symm had
        · exact h
      simp only [List.map_cons, List.sum_cons, if_neg had]
      rw [ih (List.nodup_cons.mp hL).2 hdL]
      omega

/-- With pairwise distinct parseable dates, the week total equals the sum
of dict lookups over any duplicate-free label list covering the window. -/
theorem week_eq_label_sum (now : Nat) (L : List Nat) (hL : L.Nodup)
    (hmem : ∀ d, inWindow now d = true → d ∈ L) (rs : List Row)
    (hnd : (rs.filterMap Row.date).Nodup) :
    get_week_total now rs
      = (L.map (fun x => (date_counts now rs x).getD 0)).sum := by
  revert hnd
  induction rs using List.reverseRecOn with
  | nil =>
    intro _
    simp [get_week_total, date_counts]
  | append_singleton rs r ih =>
    intro hnd
    have hnd1 : (rs.filterMap Row.date).Nodup := by
      rw [List.filterMap_append] at hnd
      exact (List.nodup_append.mp hnd).1
    rw [get_week_total_append, date_counts_append]
    cases hd : r.date with
    | none =>
      have hcontrib : weekContrib now r = 0 := by
        simp [weekContrib, hd]
      have hstep : dcStep now (date_counts now rs) r = date_counts now rs := by
        simp [dcStep, hd]
      rw [hcontrib, hstep, ih hnd1]
      omega
    | some d =>
      cases hw : inWindow now d with
      | false =>
        have hcontrib : weekContrib now r = 0 := by
          simp [weekContrib, hd, hw]
        have hstep : dcStep now (date_counts now rs) r
            = date_counts now rs := by
          simp [dcStep, hd, hw]
        rw [hcontrib, hstep, ih hnd1]
        omega
      | true =>
        have hcontrib : weekContrib now r = r.count := by
          simp [weekContrib, hd, hw]
        have hstep : dcStep now (date_counts now rs) r
            = fun x => if x = d then some r.count else date_counts now rs x := by
          simp [dcStep, hd, hw]
        have hnotin : ∀ a ∈ rs, a.date ≠ some d := by
          intro a ha had
          rw [List.filterMap_append] at hnd
          have hdis := (List.nodup_append.mp hnd).2.2
          exact hdis (List.mem_filterMap.mpr ⟨a, ha, had⟩)
            (by simp [List.filterMap_cons, hd])
        have hnone : date_counts now rs d = none :=
          date_counts_eq_none now d rs hnotin
        rw [hcontrib]
        simp only [hstep]
        rw [sum_getD_update L (date_counts now rs) d r.count hL (hmem d hw)
            hnone, ih hnd1]

/-- A row with a non-negative count contributes a non-negative amount to
the week total. -/
theorem weekContrib_nonneg (now : Nat) (r : Row) (h : 0 ≤ r.count) :
    0 ≤ weekContrib now r := by
  cases hd : r.date with
  | none => simp [weekContrib, hd]
  | some d =>
    cases hw : inWindow now d with
    | false => simp [weekContrib, hd, hw]
    | true => simpa [weekContrib, hd, hw] using h

/-- A sheet of non-negative counts has a non-negative week total. -/
theorem week_total_nonneg (now : Nat) (rs : List Row)
    (h : ∀ r ∈ rs, 0 ≤ r.count) : 0 ≤ get_week_total now rs := by
  revert h
  induction rs with
  | nil =>
    intro _
    simp [get_week_total]
  | cons r rest ih =>
    intro h
    simp only [get_week_total]
    have h1 := weekContrib_nonneg now r (h r (List.mem_cons_self r rest))
    have h2 := ih (fun a ha => h a (List.mem_cons_of_mem r ha))
    omega

/-- On a sheet of non-negative counts, today's total never exceeds the
week total computed from the same sheet: today always passes the window
test, so the first today row is part of the week sum. -/
theorem today_le_week (now : Nat) (rs : List Row)
    (h : ∀ r ∈ rs, 0 ≤ r.count) :
    get_today_total now rs ≤ get_week_total now rs := by
  revert h
  induction rs with
  | nil =>
    intro _
    simp [get_today_total, firstTodayCount, get_week_total]
  | cons r rest ih =>
    intro h
    by_cases hr : r.date = some (todayStr now)
    · have hcontrib : weekContrib now r = r.count := by
        simp [weekContrib, hr, inWindow_today]
      have hnn := week_total_nonneg now rest
        (fun a ha => h a (List.mem_cons_of_mem r ha))
      have ht : get_today_total now (r :: rest) = r.count := by
        simp [get_today_total, firstTodayCount, hr]
      simp only [get_week_total]
      rw [ht, hcontrib]
      omega
    · have ht : get_today_total now (r :: rest) = get_today_total now rest := by
        simp [get_today_total, firstTodayCount, hr]
      simp only [get_week_total]
      rw [ht]
      have h1 := weekContrib_nonneg now r (h r (List.mem_cons_self r rest))
      have h2 := ih (fun a ha => h a (List.mem_cons_of_mem r ha))
      omega

/-! ## Claims -/

/-- C1: for 0 ≤ c ≤ 100, handling the message carrying c runs the write;
the first row dated today afterwards holds t + c where t was today's prior
total, a fresh sheet is extended by the row [today, c] when no row was
dated today, and otherwise the first today row's count is replaced by
t + c with the rest of the sheet unchanged. -/
theorem c1_log_additive (now : Nat) (rs : List Row) (c : Int)
    (h0 : 0 ≤ c) (h100 : c ≤ 100) :
    get_today_total now (handle_number now rs (InMsg.num c)).2
        = get_today_total now rs + c
    ∧ (firstTodayCount (todayStr now) rs = none →
        (handle_number now rs (InMsg.num c)).2
          = rs ++ [⟨some (todayStr now), c⟩])
    ∧ ((firstTodayCount (todayStr now) rs).isSome = true →
        (handle_number now rs (InMsg.num c)).2
          = rs.takeWhile (fun r => decide (r.date ≠ some (todayStr now)))
            ++ ⟨some (todayStr now), get_today_total now rs + c⟩
              :: rs.drop
                  ((rs.takeWhile
                      (fun r => decide (r.date ≠ some (todayStr now)))).length
                    + 1)) := by
  have hstore : (handle_number now rs (InMsg.num c)).2
      = update_today_row (todayStr now) c rs := by
    simp only [handle_number]
    rw [if_neg (by omega), if_neg (by omega)]
    rfl
  refine ⟨?_, ?_, ?_⟩
  · rw [hstore]
    unfold get_today_total
    rw [utr_firstTodayCount]
    simp
  · intro h
    rw [hstore]
    exact utr_no_match _ _ _ h
  · intro h
    rw [hstore]
    unfold get_today_total
    exact utr_match _ _ _ h

/-- Witness for C1: logging 3 on a sheet whose today row holds 2 makes
today's total 5. -/
theorem c1_log_additive_witness :
    get_today_total 86443200
        (handle_number 86443200 [⟨some 1000, (2 : Int)⟩] (InMsg.num 3)).2
      = get_today_total 86443200 [⟨some 1000, (2 : Int)⟩] + 3 :=
  (c1_log_additive 86443200 [⟨some 1000, (2 : Int)⟩] 3 (by decide) (by decide)).1

/-- C2: the breakdown always has exactly 7 entries; entry k (k < 7) is for
the day k days before today, so the entries run from today back to six
days ago; and a day no row is dated with reports count 0 — all regardless
of what rows exist outside the window. -/
theorem c2_breakdown_shape (now : Nat) (rs : List Row)
    (h6 : 6 * secPerDay ≤ now) :
    (get_week_breakdown now rs).length = 7
    ∧ (∀ k, k < 7 →
        ((get_week_breakdown now rs)[k]?).map Prod.fst
          = some (todayStr now - k))
    ∧ (∀ k, k < 7 → (∀ r ∈ rs, r.date ≠ some (todayStr now - k)) →
        ((get_week_breakdown now rs)[k]?).map Prod.snd = some 0) := by
  refine ⟨by simp [get_week_breakdown], ?_, ?_⟩
  · intro k hk
    rw [breakdown_getElem now rs k hk h6]
    rfl
  · intro k hk hnone
    rw [breakdown_getElem now rs k hk h6,
        date_counts_eq_none now (todayStr now - k) rs hnone]
    rfl

/-- Witness for C2: the breakdown of an empty sheet at day 1000 noon has 7
entries. -/
theorem c2_breakdown_shape_witness :
    (get_week_breakdown 86443200 []).length = 7 :=
  (c2_breakdown_shape 86443200 [] (by decide)).1

/-- C7: a row whose Date cell does not parse is ignored by all three
statistics — removing it changes none of them — and all three are total
functions (the source catches the parse error for the week functions and
the string comparison of the today path never matches a malformed cell). -/
theorem c7_unparseable_rows_ignored (now : Nat) (l1 l2 : List Row) (r : Row)
    (hr : r.date = none) :
    get_today_total now (l1 ++ r :: l2) = get_today_total now (l1 ++ l2)
    ∧ get_week_total now (l1 ++ r :: l2) = get_week_total now (l1 ++ l2)
    ∧ get_week_breakdown now (l1 ++ r :: l2)
        = get_week_breakdown now (l1 ++ l2) := by
  refine ⟨?_, ?_, ?_⟩
  · unfold get_today_total
    congr 1
    induction l1 with
    | nil => simp [firstTodayCount, hr]
    | cons a l ih =>
      by_cases h : a.date = some (todayStr now) <;>
        simp [firstTodayCount, h, ih]
  · induction l1 with
    | nil =>
      simp only [List.nil_append, get_week_total]
      have hc : weekContrib now r = 0 := by
        unfold weekContrib
        rw [hr]
      rw [hc]
      omega
    | cons a l ih =>
      simp only [List.cons_append, get_week_total]
      exact congrArg (fun z => weekContrib now a + z) ih
  · have hstep : dcStep now (List.foldl (dcStep now) (fun _ => none) l1) r
        = List.foldl (dcStep now) (fun _ => none) l1 := by
      unfold dcStep
      rw [hr]
    have hdc : date_counts now (l1 ++ r :: l2) = date_counts now (l1 ++ l2) := by
      show List.foldl (dcStep now) (fun _ => none) (l1 ++ r :: l2)
          = List.foldl (dcStep now) (fun _ => none) (l1 ++ l2)
      rw [List.foldl_append, List.foldl_append, List.foldl_cons, hstep]
    unfold get_week_breakdown
    rw [hdc]

/-- Witness for C7: an unparseable row among parseable ones leaves today's
total unchanged. -/
theorem c7_unparseable_rows_ignored_witness :
    get_today_total 86443200 ([] ++ ⟨none, (3 : Int)⟩ :: [⟨some 1000, (2 : Int)⟩])
      = get_today_total 86443200 ([] ++ [⟨some 1000, (2 : Int)⟩]) :=
  (c7_unparseable_rows_ignored 86443200 [] [⟨some 1000, (2 : Int)⟩]
    ⟨none, 3⟩ rfl).1

/-- C3: the spec requires the rolling week window to include the calendar
day exactly 6 days before today, but get_week_total keeps the time of day
on both bounds, so at an instant that is not exactly midnight (here day
1000 at 12:00:00) a row dated day 994 — exactly 6 calendar days before
today — is excluded and the total is 0 where the spec requires 5. -/
theorem c3_sixth_day_excluded :
    todayStr 86443200 = 1000
    ∧ get_week_total 86443200 [⟨some 994, (5 : Int)⟩] = 0
    ∧ inWindow 86443200 994 = false :=
  ⟨rfl, rfl, by decide⟩

/-- C5: a non-integer message gets the usage hint, a negative integer the
positive-number prompt, an integer over 100 the confirmation prompt, and
in all three cases the sheet is returned unchanged. -/
theorem c5_invalid_inputs (now : Nat) (rs : List Row) (n : Int) :
    handle_number now rs InMsg.other = (Reply.usageHint, rs)
    ∧ (n < 0 → handle_number now rs (InMsg.num n) = (Reply.positivePrompt, rs))
    ∧ (100 < n → handle_number now rs (InMsg.num n) = (Reply.over100Prompt, rs)) := by
  refine ⟨rfl, ?_, ?_⟩
  · intro h
    simp [handle_number, h]
  · intro h
    have h0 : ¬ n < 0 := by omega
    simp [handle_number, h0, h]

/-- Witness for C5 at the inputs of the spec scenarios: text minus-one and
text 150 on an empty sheet. -/
theorem c5_invalid_inputs_witness :
    handle_number 0 [] (InMsg.num (-1)) = (Reply.positivePrompt, [])
    ∧ handle_number 0 [] (InMsg.num 150) = (Reply.over100Prompt, []) :=
  ⟨(c5_invalid_inputs 0 [] (-1)).2.1 (by decide),
   (c5_invalid_inputs 0 [] 150).2.2 (by decide)⟩

/-- C6 (amended): the stats handler re-fetches the records separately for
each of the three computations; when the store returns the same record set
on all three fetches the reply is exactly the single-snapshot statistics.
(The counterexample shows a changing store can produce a reply no single
snapshot of non-negative rows produces.) -/
theorem c6_same_fetch_consistent (now : Nat) (rs : List Row) :
    statsSeq now (fun _ => rs) = statsSingle now rs := rfl

/-- C8 (amended): startup checks only the Telegram token — main aborts
exactly when it is absent — while the store credentials and the sheet id
are checked by get_worksheet, which runs on every sheet access during
request handling. -/
theorem c8_startup_checks_token_only (c : Config) :
    (main_startup c = Except.ok () ↔ c.telegram_bot_token ≠ none)
    ∧ (get_worksheet_check c = Except.ok () ↔
        (c.google_service_account_json ≠ none ∧ c.google_sheets_id ≠ none)) := by
  constructor
  · cases h : c.telegram_bot_token <;> simp [main_startup, h]
  · cases h1 : c.google_service_account_json <;>
      cases h2 : c.google_sheets_id <;>
        simp [get_worksheet_check, get_client_check, h1, h2]

/-- Counterexample to C8 as stated: with the Telegram token present but
both store configuration items absent, startup succeeds, and the missing
store credentials are first detected by the per-request worksheet check. -/
theorem c8_counterexample :
    main_startup ⟨some ("t"), none, none⟩ = Except.ok ()
    ∧ get_worksheet_check ⟨some ("t"), none, none⟩
        = Except.error ("GOOGLE_SERVICE_ACCOUNT_JSON environment variable not set") :=
  ⟨rfl, rfl⟩

/-- C9: get_today_total returns the Count of the first row dated today (0
when none matches); in particular with two rows dated today it returns the
first Count and does not sum them. -/
theorem c9_today_total_first_match (now : Nat) (rs : List Row) (a b : Int) :
    get_today_total now rs
      = ((rs.find? (fun r => decide (r.date = some (todayStr now)))).map
          Row.count).getD 0
    ∧ get_today_total now
        (⟨some (todayStr now), a⟩ :: ⟨some (todayStr now), b⟩ :: rs) = a := by
  constructor
  · unfold get_today_total
    congr 1
    induction rs with
    | nil => rfl
    | cons r rest ih =>
      by_cases h : r.date = some (todayStr now)
      · simp [firstTodayCount, List.find?, h]
      · simp [firstTodayCount, List.find?, h, ih]
  · simp [get_today_total, firstTodayCount]

/-- C4 (amended): under the Ledger invariant — no two rows share a
parseable date — the week total equals the sum of the 7 breakdown counts
computed from the same sheet at the same instant. -/
theorem c4_week_total_eq_breakdown_sum (now : Nat) (rs : List Row)
    (h6 : 6 * secPerDay ≤ now) (hnd : (rs.filterMap Row.date).Nodup) :
    get_week_total now rs
      = ((get_week_breakdown now rs).map Prod.snd).sum := by
  have hq : 6 ≤ todayStr now := by
    unfold todayStr
    rw [secPerDay_def] at *
    omega
  have hmap : (get_week_breakdown now rs).map Prod.snd
      = ((List.range 7).map (fun k => todayStr now - k)).map
          (fun x => (date_counts now rs x).getD 0) := by
    unfold get_week_breakdown
    rw [List.map_map, List.map_map]
    apply List.map_congr_left
    intro k hk
    have hk7 : k < 7 := List.mem_range.mp hk
    simp [Function.comp, label_eq now k (by omega) h6]
  have hL : ((List.range 7).map (fun k => todayStr now - k)).Nodup := by
    refine List.Nodup.map_on ?_ (List.nodup_range 7)
    intro x hx y hy hxy
    have hx7 := List.mem_range.mp hx
    have hy7 := List.mem_range.mp hy
    omega
  have hmem : ∀ d, inWindow now d = true
      → d ∈ (List.range 7).map (fun k => todayStr now - k) := by
    intro d hw
    have hb := window_day_bounds now d hw
    exact List.mem_map.mpr
      ⟨todayStr now - d, List.mem_range.mpr (by omega), by omega⟩
  rw [hmap]
  exact week_eq_label_sum now _ hL hmem rs hnd

/-- Witness for C4 (amended) on a one-row sheet inside the window. -/
theorem c4_week_total_eq_breakdown_sum_witness :
    get_week_total 86443200 [⟨some 1000, (5 : Int)⟩]
      = ((get_week_breakdown 86443200 [⟨some 1000, (5 : Int)⟩]).map
          Prod.snd).sum :=
  c4_week_total_eq_breakdown_sum 86443200 [⟨some 1000, (5 : Int)⟩]
    (by decide) (by decide)

/-- Counterexample to C4 as stated (for every record set): with two rows
dated today holding 1 and 2, the week total sums both (3) while the
breakdown keeps only the last (2). -/
theorem c4_counterexample :
    ¬ get_week_total 86443200 [⟨some 1000, (1 : Int)⟩, ⟨some 1000, (2 : Int)⟩]
      = ((get_week_breakdown 86443200
            [⟨some 1000, (1 : Int)⟩, ⟨some 1000, (2 : Int)⟩]).map
          Prod.snd).sum := by
  decide

/-- Counterexample to C6 as stated: the stats handler fetches the sheet
once per statistic, so a store that holds a today row of 5 at the first
fetch and nothing afterwards yields the reply (today 5, week 0, empty
breakdown), which no single sheet of non-negative rows can produce, since
on one sheet today's total never exceeds the week total. -/
theorem c6_counterexample :
    ¬ ∃ rs : List Row, (∀ r ∈ rs, 0 ≤ r.count)
      ∧ statsSingle 86443200 rs
          = statsSeq 86443200
              (fun k => if k = 0 then [⟨some 1000, (5 : Int)⟩] else []) := by
  rintro ⟨rs, hnn, heq⟩
  have e1 : get_today_total 86443200 [⟨some 1000, (5 : Int)⟩] = 5 := rfl
  have h1 : get_today_total 86443200 rs = 5 := by
    have h := congrArg Prod.fst heq
    simpa [statsSingle, statsSeq, e1] using h
  have e2 : get_week_total 86443200 ([] : List Row) = 0 := rfl
  have h2 : get_week_total 86443200 rs = 0 := by
    have h := congrArg (fun p => p.2.1) heq
    simpa [statsSingle, statsSeq, e2] using h
  have hle := today_le_week 86443200 rs hnn
  omega

/-- C10: appending a row dated d inside the window adds its count to the
week total on top of whatever earlier rows (duplicates included)
contributed, while the breakdown entry for d reports exactly that last
row's count, whatever earlier rows with the same date held. -/
theorem c10_duplicate_dates (now d : Nat) (rs : List Row) (c : Int)
    (h6 : 6 * secPerDay ≤ now) (hw : inWindow now d = true) :
    get_week_total now (rs ++ [⟨some d, c⟩])
        = get_week_total now rs + c
    ∧ (get_week_breakdown now (rs ++ [⟨some d, c⟩]))[todayStr now - d]?
        = some (d, c) := by
  have hb := window_day_bounds now d hw
  have hq : 6 ≤ todayStr now := by
    unfold todayStr
    rw [secPerDay_def] at *
    omega
  constructor
  · rw [get_week_total_append]
    have hc : weekContrib now ⟨some d, c⟩ = c := by
      simp [weekContrib, hw]
    rw [hc]
  · have hk : todayStr now - d < 7 := by omega
    rw [breakdown_getElem now _ _ hk h6]
    have hdk : todayStr now - (todayStr now - d) = d := by omega
    rw [hdk, date_counts_append]
    have hs : dcStep now (date_counts now rs) ⟨some d, c⟩ d = some c := by
      simp [dcStep, hw]
    rw [hs]
    rfl

/-- Witness for C10: a second row for day 998 with count 2 after a first
with count 1; the week total becomes the prior total plus 2, the
breakdown entry for day 998 reports 2. -/
theorem c10_duplicate_dates_witness :
    get_week_total 86443200 ([⟨some 998, (1 : Int)⟩] ++ [⟨some 998, (2 : Int)⟩])
        = get_week_total 86443200 [⟨some 998, (1 : Int)⟩] + 2
    ∧ (get_week_breakdown 86443200
          ([⟨some 998, (1 : Int)⟩] ++ [⟨some 998, (2 : Int)⟩]))[todayStr 86443200 - 998]?
        = some (998, 2) :=
  c10_duplicate_dates 86443200 998 [⟨some 998, (1 : Int)⟩] 2
    (by decide) (by decide)

end EggTracker
